import Mathlib

/-!
Shallow embedding of the tensorforce `MultiStep` and `Evolutionary`
optimizers (src/tensorforce/core/optimizers/multi_step.py and
src/tensorforce/core/optimizers/evolutionary.py).

Modelling conventions:
* Tensor values are rationals (`ℚ`), one scalar per variable; the list of
  optimized variables is a `List ℚ`.  All tensor operations in the source
  (elementwise add, sub, scalar multiply, divide, `tf.sign`) act pointwise,
  so a scalar per variable captures the arithmetic exactly.
* The TensorFlow random stream under a fixed seed is a deterministic
  function `randn : ℕ → ℕ → ℚ` giving the raw standard-normal draw for
  sample index `s` and variable index `j`; both execution strategies
  consume the stream in the same order, which is what "fixed random seed"
  means for the equivalence property.
* In-graph side effects (`apply_step` mutating Variables, `fn_loss` reads,
  the RNG state) are made explicit: the step functions thread the variable
  values and record a trace of every `apply_step` result and of the
  variable state at every `fn_loss` call, plus the per-sample direction and
  the per-sample contribution added into `deltas_sum`.
* `tf.while_loop` with the always-true condition `util.tf_always_true` and
  `maximum_iterations = m` runs its body exactly `m` times; it is embedded
  as the bounded iterator `tfWhileLoop`.
* Python's `dict` of step arguments is embedded as `String → Option ℚ`;
  the item assignment `arguments['reference'] = v` is `dictSet`.
* Python `assert` validation in the constructors is embedded as `Option`
  returning constructors (`none` = `AssertionError`); the `isinstance`
  type checks are carried by the Lean types of the parameters
  (`Int` for `int`, `ℚ` for `float`, `Bool` for `bool`).
-/

namespace Tensorforce

/-- Step arguments: a string-keyed dictionary of numeric inputs
(`arguments` in the source). -/
def Arguments : Type := String → Option ℚ

/-- Python dict item assignment `a[k] = v`: overwrite key `k`, leave every
other key unchanged. -/
def dictSet (a : Arguments) (k : String) (v : ℚ) : Arguments :=
  fun q => if q = k then some v else a q

/-- An empty arguments dictionary, used as a concrete fixture. -/
def emptyArgs : Arguments := fun _ => none

/-- `tf.sign` on a scalar: `1` for positive, `-1` for negative, `0` for zero. -/
def tfSign (x : ℚ) : ℚ := if 0 < x then 1 else if x < 0 then -1 else 0

/-- `tf.while_loop(cond=util.tf_always_true, body, loop_vars, maximum_iterations=m)`:
with an always-true condition the loop runs its body exactly `m` times on
the loop-carried state. -/
def tfWhileLoop (body : α → α) : ℕ → α → α
  | 0, x => x
  | m + 1, x => tfWhileLoop body m (body x)

/-- The perturbation list comprehension of the source:
`[tf.random_normal(shape=util.shape(variable)) * self.learning_rate for variable in variables]`,
for sample index `s`, over `nv` variables, under the deterministic
fixed-seed stream `randn`. -/
def samplePert (randn : ℕ → ℕ → ℚ) (lr : ℚ) (nv : ℕ) (s : ℕ) : List ℚ :=
  (List.range nv).map (fun j => randn s j * lr)

/-- Configuration stored by `Evolutionary.__init__` (immutable after
construction). -/
structure Evolutionary where
  learning_rate : ℚ
  num_samples : ℕ
  unroll_loop : Bool

/-- `Evolutionary.__init__`: asserts `isinstance(learning_rate, float) and
learning_rate > 0.0`, then `isinstance(num_samples, int) and num_samples > 0`;
on success stores the fields. A failed assert is `none`. -/
def Evolutionary.make (learning_rate : ℚ) (num_samples : Int) (unroll_loop : Bool) :
    Option Evolutionary :=
  if 0 < learning_rate then
    if 0 < num_samples then some ⟨learning_rate, num_samples.toNat, unroll_loop⟩
    else none
  else none

/-- Configuration stored by `MultiStep.__init__` (immutable after
construction).  The wrapped inner optimizer is a parameter of `tf_step` in
this embedding. -/
structure MultiStep where
  num_steps : ℕ
  unroll_loop : Bool

/-- `MultiStep.__init__`: asserts `isinstance(num_steps, int) and
num_steps > 0`; on success stores the fields. -/
def MultiStep.make (num_steps : Int) (unroll_loop : Bool) : Option MultiStep :=
  if 0 < num_steps then some ⟨num_steps.toNat, unroll_loop⟩
  else none

/-- Loop-carried/engine state during `Evolutionary.tf_step`.  `vars` and
the traces are engine side effects made explicit; `deltasSum` and
`prevPert` are the loop variables `(deltas_sum, perturbations)` of the
source's while loop. -/
structure EvoSt where
  vars : List ℚ
  prevPert : List ℚ
  deltasSum : List ℚ
  lossTrace : List (List ℚ)
  applyTrace : List (List ℚ)
  dirs : List ℚ
  contribs : List (List ℚ)

/-- Result of `Evolutionary.tf_step`: the returned `deltas`, the final
Variable values, the (untouched) arguments dict, the trace of variable
states at each `fn_loss` call, the trace of variable states after each
`apply_step`, the per-sample `direction` values, the per-sample
contribution `direction * perturbation` added into `deltas_sum`, and the
final accumulator `deltas_sum`. -/
structure EvoResult where
  deltas : List ℚ
  vars : List ℚ
  args : Arguments
  lossTrace : List (List ℚ)
  applyTrace : List (List ℚ)
  dirs : List ℚ
  contribs : List (List ℚ)
  deltasSum : List ℚ

/-- Body of the unrolled `for sample in range(self.num_samples - 1)` loop of
`Evolutionary.tf_step`; `s` is the index of the perturbation set drawn in
this iteration (iteration `sample` draws set `sample + 1`), `u` the fixed
`unperturbed_loss`, `fnLossA` is `fn_loss` with `arguments` applied. -/
def evoBodyUnrolled (lr u : ℚ) (nv : ℕ) (fnLossA : List ℚ → ℚ)
    (randn : ℕ → ℕ → ℚ) (s : ℕ) (st : EvoSt) : EvoSt :=
  let perturbations := samplePert randn lr nv s
  let perturbation_deltas :=
    List.zipWith (fun pert prev_pert => pert - prev_pert) perturbations st.prevPert
  let vars := List.zipWith (· + ·) st.vars perturbation_deltas
  let perturbed_loss := fnLossA vars
  let direction := tfSign (u - perturbed_loss)
  let contrib := perturbations.map (fun perturbation => direction * perturbation)
  let deltas_sum := List.zipWith (· + ·) st.deltasSum contrib
  { vars := vars, prevPert := perturbations, deltasSum := deltas_sum,
    lossTrace := st.lossTrace ++ [vars], applyTrace := st.applyTrace ++ [vars],
    dirs := st.dirs ++ [direction], contribs := st.contribs ++ [contrib] }

/-- Body of the `tf.while_loop` branch of `Evolutionary.tf_step` (the
source defines this body a second time, textually identical to the
unrolled one).  The second component is the RNG sample counter: the
while-loop body has no static index, so the fixed-seed stream position is
threaded as engine state. -/
def evoBodyWhile (lr u : ℚ) (nv : ℕ) (fnLossA : List ℚ → ℚ)
    (randn : ℕ → ℕ → ℚ) (stk : EvoSt × ℕ) : EvoSt × ℕ :=
  let st := stk.1
  let k := stk.2
  let perturbations := samplePert randn lr nv k
  let perturbation_deltas :=
    List.zipWith (fun pert prev_pert => pert - prev_pert) perturbations st.prevPert
  let vars := List.zipWith (· + ·) st.vars perturbation_deltas
  let perturbed_loss := fnLossA vars
  let direction := tfSign (u - perturbed_loss)
  let contrib := perturbations.map (fun perturbation => direction * perturbation)
  let deltas_sum := List.zipWith (· + ·) st.deltasSum contrib
  ({ vars := vars, prevPert := perturbations, deltasSum := deltas_sum,
     lossTrace := st.lossTrace ++ [vars], applyTrace := st.applyTrace ++ [vars],
     dirs := st.dirs ++ [direction], contribs := st.contribs ++ [contrib] }, k + 1)

/-- `Evolutionary.tf_step`: evaluate the unperturbed loss, draw and apply a
first perturbation set, accumulate `direction * perturbation`, run
`num_samples - 1` further samples either unrolled or via the bounded while
loop, then divide by `num_samples` and move the Variables from the last
perturbation to the final deltas.  The trailing `identity_operation` of the
source is a pass-through and adds nothing to the value. -/
def Evolutionary.tf_step (o : Evolutionary) (fnLoss : Arguments → List ℚ → ℚ)
    (randn : ℕ → ℕ → ℚ) (arguments : Arguments) (v0 : List ℚ) : EvoResult :=
  let lr := o.learning_rate
  let nv := v0.length
  let unperturbed_loss := fnLoss arguments v0
  let perturbations := samplePert randn lr nv 0
  let vars1 := List.zipWith (· + ·) v0 perturbations
  let perturbed_loss := fnLoss arguments vars1
  let direction := tfSign (unperturbed_loss - perturbed_loss)
  let contrib0 := perturbations.map (fun perturbation => direction * perturbation)
  let st0 : EvoSt :=
    { vars := vars1, prevPert := perturbations, deltasSum := contrib0,
      lossTrace := [v0, vars1], applyTrace := [vars1],
      dirs := [direction], contribs := [contrib0] }
  let st :=
    if o.unroll_loop then
      (List.range (o.num_samples - 1)).foldl
        (fun st sample =>
          evoBodyUnrolled lr unperturbed_loss nv (fnLoss arguments) randn (sample + 1) st)
        st0
    else
      (tfWhileLoop (evoBodyWhile lr unperturbed_loss nv (fnLoss arguments) randn)
        (o.num_samples - 1) (st0, 1)).1
  let deltas := st.deltasSum.map (fun delta => delta / (o.num_samples : ℚ))
  let perturbation_deltas := List.zipWith (fun delta pert => delta - pert) deltas st.prevPert
  let varsF := List.zipWith (· + ·) st.vars perturbation_deltas
  { deltas := deltas, vars := varsF, args := arguments,
    lossTrace := st.lossTrace, applyTrace := st.applyTrace ++ [varsF],
    dirs := st.dirs, contribs := st.contribs, deltasSum := st.deltasSum }

/-- Result of `MultiStep.tf_step`: the accumulated deltas, the arguments
dict after the in-place `reference` injection, the arguments value passed
to each inner `step` call in order, and the final inner-optimizer state. -/
structure MSResult (σ : Type) where
  deltas : List ℚ
  args : Arguments
  innerArgs : List Arguments
  state : σ

/-- Shared loop body of `MultiStep.tf_step` (the source writes it twice,
textually identical, once inline in the unrolled `for` and once as the
while-loop `body`): invoke the inner optimizer's step and add its deltas
elementwise into the accumulator.  The accumulator carries
`(deltas, inner state, arguments passed so far)`. -/
def msBody {σ : Type} (inner : Arguments → σ → List ℚ × σ) (arguments : Arguments)
    (acc : List ℚ × σ × List Arguments) : List ℚ × σ × List Arguments :=
  let step_deltas := inner arguments acc.2.1
  (List.zipWith (fun delta1 delta2 => delta1 + delta2) acc.1 step_deltas.1,
    step_deltas.2, acc.2.2 ++ [arguments])

/-- `MultiStep.tf_step`: inject `arguments['reference'] = fn_reference(**arguments)`
(unconditionally — with `fn_reference=None`, the default, the call
`None(**arguments)` raises `TypeError`, embedded as `none`), run the first
inner step, then `num_steps - 1` further inner steps either unrolled or via
the bounded while loop, summing deltas elementwise.  The inner optimizer is
the abstract state transformer `inner` (its `step` returns deltas and may
mutate Variables, i.e. its state `σ`). -/
def MultiStep.tf_step {σ : Type} (o : MultiStep) (inner : Arguments → σ → List ℚ × σ)
    (fn_reference : Option (Arguments → ℚ)) (arguments0 : Arguments) (s0 : σ) :
    Option (MSResult σ) :=
  match fn_reference with
  | none => none
  | some f =>
    let arguments := dictSet arguments0 "reference" (f arguments0)
    let first := inner arguments s0
    let acc0 : List ℚ × σ × List Arguments := (first.1, first.2, [arguments])
    let acc :=
      if o.unroll_loop then
        (List.range (o.num_steps - 1)).foldl (fun acc _ => msBody inner arguments acc) acc0
      else
        tfWhileLoop (msBody inner arguments) (o.num_steps - 1) acc0
    some ⟨acc.1, arguments, acc.2.2, acc.2.1⟩

/-- The delta sequences produced by `k` sequential invocations of the inner
optimizer's step on the same arguments, each invocation starting from the
state left by the previous one; also returns the final state. -/
def seqDeltas {σ : Type} (inner : Arguments → σ → List ℚ × σ) (arguments : Arguments) :
    ℕ → σ → List (List ℚ) × σ
  | 0, s => ([], s)
  | k + 1, s =>
    let d := inner arguments s
    let rest := seqDeltas inner arguments k d.2
    (d.1 :: rest.1, rest.2)

/-- Elementwise sum of a list of delta sequences (left fold of elementwise
addition, i.e. floating-point summation order of the source). -/
def elemSum : List (List ℚ) → List ℚ
  | [] => []
  | d :: ds => ds.foldl (fun acc x => List.zipWith (· + ·) acc x) d

/-- Perturbation set drawn for sample `s` of `Evolutionary.tf_step`. -/
def pertAt (randn : ℕ → ℕ → ℚ) (lr : ℚ) (v0 : List ℚ) (s : ℕ) : List ℚ :=
  samplePert randn lr v0.length s

/-- Variable values while sample `s`'s perturbation is applied:
original values plus the sample's perturbation. -/
def varsAt (randn : ℕ → ℕ → ℚ) (lr : ℚ) (v0 : List ℚ) (s : ℕ) : List ℚ :=
  List.zipWith (· + ·) v0 (pertAt randn lr v0 s)

/-- Direction observed for sample `s`: the sign of
`unperturbed_loss - perturbed_loss`, the perturbed loss being evaluated at
the perturbed variables and the baseline at the original variables. -/
def dirAt (randn : ℕ → ℕ → ℚ) (lr : ℚ) (fnLossA : List ℚ → ℚ) (v0 : List ℚ) (s : ℕ) : ℚ :=
  tfSign (fnLossA v0 - fnLossA (varsAt randn lr v0 s))

/-- Contribution added into `deltas_sum` by sample `s`:
`direction * perturbation` for each variable. -/
def contribAt (randn : ℕ → ℕ → ℚ) (lr : ℚ) (fnLossA : List ℚ → ℚ) (v0 : List ℚ) (s : ℕ) :
    List ℚ :=
  (pertAt randn lr v0 s).map (fun perturbation => dirAt randn lr fnLossA v0 s * perturbation)

/-- Accumulator `deltas_sum` after samples `0..t` have been processed. -/
def dsumAt (randn : ℕ → ℕ → ℚ) (lr : ℚ) (fnLossA : List ℚ → ℚ) (v0 : List ℚ) : ℕ → List ℚ
  | 0 => contribAt randn lr fnLossA v0 0
  | t + 1 => List.zipWith (· + ·) (dsumAt randn lr fnLossA v0 t) (contribAt randn lr fnLossA v0 (t + 1))

/-- Closed form of the engine state after samples `0..t` of
`Evolutionary.tf_step` have been processed. -/
def stAfter (randn : ℕ → ℕ → ℚ) (lr : ℚ) (fnLossA : List ℚ → ℚ) (v0 : List ℚ) (t : ℕ) : EvoSt :=
  { vars := varsAt randn lr v0 t,
    prevPert := pertAt randn lr v0 t,
    deltasSum := dsumAt randn lr fnLossA v0 t,
    lossTrace := v0 :: (List.range (t + 1)).map (varsAt randn lr v0),
    applyTrace := (List.range (t + 1)).map (varsAt randn lr v0),
    dirs := (List.range (t + 1)).map (dirAt randn lr fnLossA v0),
    contribs := (List.range (t + 1)).map (contribAt randn lr fnLossA v0) }

/-- Iterating a body commutes with one application of the body. -/
lemma tfWhileLoop_comm {α : Type} (g : α → α) : ∀ (m : ℕ) (a : α),
    tfWhileLoop g m (g a) = g (tfWhileLoop g m a)
  | 0, _ => rfl
  | m + 1, a => tfWhileLoop_comm g m (g a)

/-- A fold over `List.range` whose body ignores the index is the bounded
while loop. -/
lemma foldl_range_const {α : Type} (g : α → α) : ∀ (m : ℕ) (a : α),
    (List.range m).foldl (fun x _ => g x) a = tfWhileLoop g m a := by
  intro m
  induction m with
  | zero => intro a; rfl
  | succ m ih =>
    intro a
    rw [List.range_succ, List.foldl_append, ih]
    show g (tfWhileLoop _ m a) = tfWhileLoop _ (m + 1) a
    rw [show tfWhileLoop g (m + 1) a = tfWhileLoop g m (g a) from rfl, tfWhileLoop_comm]

/-- Shifting a fold over `List.range` by one gives a fold over `List.range' 1`. -/
lemma foldl_range_shift {α : Type} (B : ℕ → α → α) (m : ℕ) (a : α) :
    (List.range m).foldl (fun x sample => B (sample + 1) x) a =
      (List.range' 1 m).foldl (fun x s => B s x) a := by
  rw [List.range'_eq_map_range 1 m, List.foldl_map]
  simp only [Nat.add_comm 1]

/-- Pointwise cancellation: adding `q - p` on top of an already applied `p`
leaves exactly `q` applied. -/
lemma zipWith_add_sub : ∀ (v p q : List ℚ), p.length = v.length → q.length = v.length →
    List.zipWith (· + ·) (List.zipWith (· + ·) v p)
        (List.zipWith (fun a b => a - b) q p) =
      List.zipWith (· + ·) v q
  | [], _, _, _, _ => by simp
  | _ :: _, [], _, h1, _ => by simp at h1
  | _ :: _, _ :: _, [], _, h2 => by simp at h2
  | a :: v, b :: p, c :: q, h1, h2 => by
    simp only [List.zipWith_cons_cons, List.cons.injEq]
    refine ⟨by ring, zipWith_add_sub v p q ?_ ?_⟩
    · simpa using h1
    · simpa using h2

/-- Pointwise distribution of elementwise addition over two scalar
multiples of the same list. -/
lemma zipWith_map_mul_add (c d : ℚ) : ∀ (P : List ℚ),
    List.zipWith (· + ·) (P.map (fun p => c * p)) (P.map (fun p => d * p)) =
      P.map (fun p => (c + d) * p)
  | [] => rfl
  | x :: P => by
    simp only [List.map_cons, List.zipWith_cons_cons, zipWith_map_mul_add c d P,
      List.cons.injEq, and_true]
    ring

lemma samplePert_length (randn : ℕ → ℕ → ℚ) (lr : ℚ) (nv s : ℕ) :
    (samplePert randn lr nv s).length = nv := by
  simp [samplePert]

lemma pertAt_length (randn : ℕ → ℕ → ℚ) (lr : ℚ) (v0 : List ℚ) (s : ℕ) :
    (pertAt randn lr v0 s).length = v0.length := by
  simp [pertAt, samplePert]

lemma contribAt_length (randn : ℕ → ℕ → ℚ) (lr : ℚ) (L : List ℚ → ℚ) (v0 : List ℚ) (s : ℕ) :
    (contribAt randn lr L v0 s).length = v0.length := by
  simp [contribAt, pertAt, samplePert]

lemma dsumAt_length (randn : ℕ → ℕ → ℚ) (lr : ℚ) (L : List ℚ → ℚ) (v0 : List ℚ) :
    ∀ t, (dsumAt randn lr L v0 t).length = v0.length
  | 0 => contribAt_length randn lr L v0 0
  | t + 1 => by
    simp [dsumAt, List.length_zipWith, dsumAt_length randn lr L v0 t, contribAt_length]

lemma tfSign_of_pos {x : ℚ} (h : 0 < x) : tfSign x = 1 := by
  simp [tfSign, h]

lemma tfSign_of_neg {x : ℚ} (h : x < 0) : tfSign x = -1 := by
  rw [tfSign, if_neg (by linarith), if_pos h]

lemma tfSign_zero : tfSign 0 = 0 := by simp [tfSign]

lemma tfSign_trichotomy (x : ℚ) : tfSign x = 1 ∨ tfSign x = -1 ∨ tfSign x = 0 := by
  unfold tfSign
  split_ifs <;> simp

lemma range_map_getElem? {α : Type} (f : ℕ → α) (n s : ℕ) (h : s < n) :
    ((List.range n).map f)[s]? = some (f s) := by
  simp [List.getElem?_map, List.getElem?_range, h]

/-- The while-loop body is the unrolled body at the carried sample counter,
with the counter advanced. -/
lemma evoBodyWhile_eq (lr u : ℚ) (nv : ℕ) (fnLossA : List ℚ → ℚ)
    (randn : ℕ → ℕ → ℚ) (k : ℕ) (st : EvoSt) :
    evoBodyWhile lr u nv fnLossA randn (st, k) =
      (evoBodyUnrolled lr u nv fnLossA randn k st, k + 1) := rfl

/-- One iteration of the evolutionary loop body advances the closed-form
state by one sample. -/
lemma evoBody_stAfter (randn : ℕ → ℕ → ℚ) (lr : ℚ) (L : List ℚ → ℚ) (v0 : List ℚ) (t : ℕ) :
    evoBodyUnrolled lr (L v0) v0.length L randn (t + 1) (stAfter randn lr L v0 t) =
      stAfter randn lr L v0 (t + 1) := by
  have hv : List.zipWith (· + ·) (stAfter randn lr L v0 t).vars
      (List.zipWith (fun pert prev_pert => pert - prev_pert)
        (samplePert randn lr v0.length (t + 1)) (stAfter randn lr L v0 t).prevPert) =
      varsAt randn lr v0 (t + 1) :=
    zipWith_add_sub v0 (pertAt randn lr v0 t) (pertAt randn lr v0 (t + 1))
      (pertAt_length randn lr v0 t) (pertAt_length randn lr v0 (t + 1))
  simp only [evoBodyUnrolled, hv]
  simp [stAfter, dsumAt, List.range_succ, varsAt, dirAt, contribAt, pertAt]

/-- Folding the unrolled body over sample indices `t+1 .. t+m` advances the
closed-form state by `m` samples. -/
lemma foldl_stAfter (randn : ℕ → ℕ → ℚ) (lr : ℚ) (L : List ℚ → ℚ) (v0 : List ℚ) :
    ∀ (m t : ℕ),
      (List.range' (t + 1) m).foldl
          (fun st s => evoBodyUnrolled lr (L v0) v0.length L randn s st)
          (stAfter randn lr L v0 t) =
        stAfter randn lr L v0 (t + m) := by
  intro m
  induction m with
  | zero => intro t; rfl
  | succ m ih =>
    intro t
    rw [List.range'_succ, List.foldl_cons, evoBody_stAfter, ih (t + 1)]
    congr 1
    omega

/-- The bounded while loop over the while body, started at sample counter
`k`, is the fold of the unrolled body over `List.range' k m`, with the
counter advanced by `m`. -/
lemma tfWhileLoop_evoBody (lr u : ℚ) (nv : ℕ) (fnLossA : List ℚ → ℚ) (randn : ℕ → ℕ → ℚ) :
    ∀ (m k : ℕ) (st : EvoSt),
      tfWhileLoop (evoBodyWhile lr u nv fnLossA randn) m (st, k) =
        ((List.range' k m).foldl (fun x s => evoBodyUnrolled lr u nv fnLossA randn s x) st,
          k + m) := by
  intro m
  induction m with
  | zero => intro k st; rfl
  | succ m ih =>
    intro k st
    rw [show tfWhileLoop (evoBodyWhile lr u nv fnLossA randn) (m + 1) (st, k) =
          tfWhileLoop (evoBodyWhile lr u nv fnLossA randn) m
            (evoBodyWhile lr u nv fnLossA randn (st, k)) from rfl,
      evoBodyWhile_eq, ih, List.range'_succ, List.foldl_cons]
    congr 1
    omega

/-- The state built by the first-sample phase of `Evolutionary.tf_step` is
the closed-form state after sample `0`. -/
lemma st0_eq_stAfter (randn : ℕ → ℕ → ℚ) (lr : ℚ) (L : List ℚ → ℚ) (v0 : List ℚ) :
    ({ vars := List.zipWith (· + ·) v0 (samplePert randn lr v0.length 0),
       prevPert := samplePert randn lr v0.length 0,
       deltasSum := (samplePert randn lr v0.length 0).map
         (fun perturbation =>
           tfSign (L v0 - L (List.zipWith (· + ·) v0 (samplePert randn lr v0.length 0))) *
             perturbation),
       lossTrace := [v0, List.zipWith (· + ·) v0 (samplePert randn lr v0.length 0)],
       applyTrace := [List.zipWith (· + ·) v0 (samplePert randn lr v0.length 0)],
       dirs := [tfSign (L v0 - L (List.zipWith (· + ·) v0 (samplePert randn lr v0.length 0)))],
       contribs := [(samplePert randn lr v0.length 0).map
         (fun perturbation =>
           tfSign (L v0 - L (List.zipWith (· + ·) v0 (samplePert randn lr v0.length 0))) *
             perturbation)] } : EvoSt) = stAfter randn lr L v0 0 := by
  simp [stAfter, dsumAt, varsAt, dirAt, contribAt, pertAt, List.range_succ]

/-- Characterization of `Evolutionary.tf_step` for at least one sample,
whichever execution strategy is selected: every field of the result in
closed form. -/
lemma evoStepEq (lr : ℚ) (n : ℕ) (ul : Bool) (fnLoss : Arguments → List ℚ → ℚ)
    (randn : ℕ → ℕ → ℚ) (arguments : Arguments) (v0 : List ℚ) (h : 1 ≤ n) :
    Evolutionary.tf_step ⟨lr, n, ul⟩ fnLoss randn arguments v0 =
      { deltas := (dsumAt randn lr (fnLoss arguments) v0 (n - 1)).map
          (fun delta => delta / (n : ℚ)),
        vars := List.zipWith (· + ·) v0
          ((dsumAt randn lr (fnLoss arguments) v0 (n - 1)).map
            (fun delta => delta / (n : ℚ))),
        args := arguments,
        lossTrace := v0 :: (List.range n).map (varsAt randn lr v0),
        applyTrace := (List.range n).map (varsAt randn lr v0) ++
          [List.zipWith (· + ·) v0
            ((dsumAt randn lr (fnLoss arguments) v0 (n - 1)).map
              (fun delta => delta / (n : ℚ)))],
        dirs := (List.range n).map (dirAt randn lr (fnLoss arguments) v0),
        contribs := (List.range n).map (contribAt randn lr (fnLoss arguments) v0),
        deltasSum := dsumAt randn lr (fnLoss arguments) v0 (n - 1) } := by
  have hst : (if ul then
        (List.range (n - 1)).foldl
          (fun st sample =>
            evoBodyUnrolled lr (fnLoss arguments v0) v0.length (fnLoss arguments) randn
              (sample + 1) st)
          (stAfter randn lr (fnLoss arguments) v0 0)
      else
        (tfWhileLoop
          (evoBodyWhile lr (fnLoss arguments v0) v0.length (fnLoss arguments) randn)
          (n - 1) (stAfter randn lr (fnLoss arguments) v0 0, 1)).1) =
      stAfter randn lr (fnLoss arguments) v0 (n - 1) := by
    cases ul with
    | true =>
      rw [if_pos rfl, foldl_range_shift]
      have := foldl_stAfter randn lr (fnLoss arguments) v0 (n - 1) 0
      simpa using this
    | false =>
      rw [if_neg (by simp), tfWhileLoop_evoBody]
      have := foldl_stAfter randn lr (fnLoss arguments) v0 (n - 1) 0
      simp only [Nat.zero_add] at this
      rw [this]
  have hfinal : List.zipWith (· + ·) (stAfter randn lr (fnLoss arguments) v0 (n - 1)).vars
      (List.zipWith (fun delta pert => delta - pert)
        ((stAfter randn lr (fnLoss arguments) v0 (n - 1)).deltasSum.map
          (fun delta => delta / (n : ℚ)))
        (stAfter randn lr (fnLoss arguments) v0 (n - 1)).prevPert) =
      List.zipWith (· + ·) v0
        ((dsumAt randn lr (fnLoss arguments) v0 (n - 1)).map
          (fun delta => delta / (n : ℚ))) := by
    refine zipWith_add_sub v0 (pertAt randn lr v0 (n - 1)) _
      (pertAt_length randn lr v0 (n - 1)) ?_
    simp [stAfter, dsumAt_length]
  have hn : n - 1 + 1 = n := by omega
  simp only [Evolutionary.tf_step, st0_eq_stAfter, hst, hfinal]
  simp [stAfter, hn]

/-- Running the multi-step loop body `m` times accumulates, elementwise on
top of `d`, the deltas of `m` further sequential inner invocations, records
`m` further identical argument values, and ends in the sequential final
state. -/
lemma tfWhileLoop_msBody {σ : Type} (inner : Arguments → σ → List ℚ × σ) (a : Arguments) :
    ∀ (m : ℕ) (d : List ℚ) (s : σ) (c : List Arguments),
      tfWhileLoop (msBody inner a) m (d, s, c) =
        ((seqDeltas inner a m s).1.foldl (fun acc x => List.zipWith (· + ·) acc x) d,
          (seqDeltas inner a m s).2, c ++ List.replicate m a) := by
  intro m
  induction m with
  | zero => intro d s c; simp [tfWhileLoop, seqDeltas]
  | succ m ih =>
    intro d s c
    rw [show tfWhileLoop (msBody inner a) (m + 1) (d, s, c) =
          tfWhileLoop (msBody inner a) m (msBody inner a (d, s, c)) from rfl]
    show tfWhileLoop (msBody inner a) m
        (List.zipWith (fun delta1 delta2 => delta1 + delta2) d (inner a s).1,
          (inner a s).2, c ++ [a]) = _
    rw [ih]
    simp [seqDeltas, List.replicate_succ, List.append_assoc]

/-- Characterization of `MultiStep.tf_step` for a provided `fn_reference`
and at least one step, whichever execution strategy is selected: the
reference is injected once up front, the result deltas are the elementwise
sum of the `num_steps` sequential inner delta sequences, every inner call
receives the same augmented arguments, and the final inner state is the
sequential one. -/
lemma msStepEq {σ : Type} (k : ℕ) (ul : Bool) (inner : Arguments → σ → List ℚ × σ)
    (f : Arguments → ℚ) (arguments0 : Arguments) (s0 : σ) (h : 1 ≤ k) :
    MultiStep.tf_step ⟨k, ul⟩ inner (some f) arguments0 s0 =
      some { deltas := elemSum
               (seqDeltas inner (dictSet arguments0 "reference" (f arguments0)) k s0).1,
             args := dictSet arguments0 "reference" (f arguments0),
             innerArgs := List.replicate k (dictSet arguments0 "reference" (f arguments0)),
             state := (seqDeltas inner (dictSet arguments0 "reference" (f arguments0)) k s0).2 } := by
  obtain ⟨m, rfl⟩ : ∃ m, k = m + 1 := ⟨k - 1, by omega⟩
  simp only [MultiStep.tf_step, foldl_range_const]
  have hb : (if ul then
        tfWhileLoop (msBody inner (dictSet arguments0 "reference" (f arguments0))) (m + 1 - 1)
          ((inner (dictSet arguments0 "reference" (f arguments0)) s0).1,
            (inner (dictSet arguments0 "reference" (f arguments0)) s0).2,
            [dictSet arguments0 "reference" (f arguments0)])
      else
        tfWhileLoop (msBody inner (dictSet arguments0 "reference" (f arguments0))) (m + 1 - 1)
          ((inner (dictSet arguments0 "reference" (f arguments0)) s0).1,
            (inner (dictSet arguments0 "reference" (f arguments0)) s0).2,
            [dictSet arguments0 "reference" (f arguments0)])) =
      tfWhileLoop (msBody inner (dictSet arguments0 "reference" (f arguments0))) m
        ((inner (dictSet arguments0 "reference" (f arguments0)) s0).1,
          (inner (dictSet arguments0 "reference" (f arguments0)) s0).2,
          [dictSet arguments0 "reference" (f arguments0)]) := by
    cases ul <;> simp
  rw [hb, tfWhileLoop_msBody]
  have hseq : seqDeltas inner (dictSet arguments0 "reference" (f arguments0)) (m + 1) s0 =
      ((inner (dictSet arguments0 "reference" (f arguments0)) s0).1 ::
        (seqDeltas inner (dictSet arguments0 "reference" (f arguments0)) m
          (inner (dictSet arguments0 "reference" (f arguments0)) s0).2).1,
        (seqDeltas inner (dictSet arguments0 "reference" (f arguments0)) m
          (inner (dictSet arguments0 "reference" (f arguments0)) s0).2).2) := rfl
  simp [hseq, elemSum, List.replicate_succ]

/-- `seqDeltas` produces exactly one delta sequence per invocation. -/
lemma seqDeltas_length {σ : Type} (inner : Arguments → σ → List ℚ × σ) (a : Arguments) :
    ∀ (m : ℕ) (s : σ), (seqDeltas inner a m s).1.length = m
  | 0, _ => rfl
  | m + 1, s => by
    show ((inner a s).1 :: (seqDeltas inner a m (inner a s).2).1).length = m + 1
    simp [seqDeltas_length inner a m]

lemma elemSum_append_single (ds : List (List ℚ)) (x : List ℚ) (hne : ds ≠ []) :
    elemSum (ds ++ [x]) = List.zipWith (· + ·) (elemSum ds) x := by
  cases ds with
  | nil => exact absurd rfl hne
  | cons d ds => simp [elemSum, List.foldl_append]

/-- The accumulator closed form is the elementwise sum of the per-sample
contributions. -/
lemma elemSum_contribs (randn : ℕ → ℕ → ℚ) (lr : ℚ) (L : List ℚ → ℚ) (v0 : List ℚ) :
    ∀ t, elemSum ((List.range (t + 1)).map (contribAt randn lr L v0)) = dsumAt randn lr L v0 t
  | 0 => by simp [elemSum, List.range_succ, dsumAt]
  | t + 1 => by
    rw [List.range_succ, List.map_append, List.map_cons, List.map_nil,
      elemSum_append_single _ _ (by simp), elemSum_contribs randn lr L v0 t]
    rfl

/-- The unrolled branch of the evolutionary loop equals the while-loop
branch started at sample counter `1`. -/
lemma evo_branch_eq (lr u : ℚ) (nv : ℕ) (fnLossA : List ℚ → ℚ) (randn : ℕ → ℕ → ℚ)
    (m : ℕ) (st : EvoSt) :
    (List.range m).foldl
        (fun st sample => evoBodyUnrolled lr u nv fnLossA randn (sample + 1) st) st =
      (tfWhileLoop (evoBodyWhile lr u nv fnLossA randn) m (st, 1)).1 := by
  rw [foldl_range_shift, tfWhileLoop_evoBody]

/-- When every sample up to `n` observes direction `+1` and the same
perturbation `P`, the accumulator after `t < n` samples is `(t+1) • P`
elementwise. -/
lemma dsumAt_const (randn : ℕ → ℕ → ℚ) (lr : ℚ) (L : List ℚ → ℚ) (v0 : List ℚ)
    (n : ℕ) (P : List ℚ)
    (hdir : ∀ s, s < n → dirAt randn lr L v0 s = 1)
    (hpert : ∀ s, s < n → pertAt randn lr v0 s = P) :
    ∀ t, t < n → dsumAt randn lr L v0 t = P.map (fun p => ((t : ℚ) + 1) * p) := by
  intro t
  induction t with
  | zero =>
    intro h0
    simp [dsumAt, contribAt, hdir 0 h0, hpert 0 h0]
  | succ t ih =>
    intro h
    rw [dsumAt, ih (by omega), contribAt, hdir (t + 1) h, hpert (t + 1) h]
    rw [show (fun perturbation => (1 : ℚ) * perturbation) = (fun p => (1 : ℚ) * p) from rfl,
      zipWith_map_mul_add]
    congr 1
    funext p
    push_cast
    ring

/-- C7: every invalid configuration — `num_steps < 1` for MultiStep,
`num_samples < 1` or `learning_rate ≤ 0` for Evolutionary (wrong argument
types being excluded by the parameter types of the embedding) — is
rejected at construction; every valid configuration constructs
successfully with `learning_rate`, `num_samples`/`num_steps` and
`unroll_loop` stored (immutably — Lean structures are immutable, and
`tf_step` is total on constructed configurations, so no configuration
check is deferred to step time). -/
theorem claim_C7 :
    (∀ (learning_rate : ℚ) (num_samples : Int) (unroll_loop : Bool),
      (0 < learning_rate ∧ 0 < num_samples →
        Evolutionary.make learning_rate num_samples unroll_loop =
          some ⟨learning_rate, num_samples.toNat, unroll_loop⟩) ∧
      (¬(0 < learning_rate ∧ 0 < num_samples) →
        Evolutionary.make learning_rate num_samples unroll_loop = none)) ∧
    (∀ (num_steps : Int) (unroll_loop : Bool),
      (0 < num_steps →
        MultiStep.make num_steps unroll_loop = some ⟨num_steps.toNat, unroll_loop⟩) ∧
      (num_steps ≤ 0 → MultiStep.make num_steps unroll_loop = none)) := by
  refine ⟨fun lr ns u => ⟨fun h => ?_, fun h => ?_⟩, fun k u => ⟨fun h => ?_, fun h => ?_⟩⟩
  · simp [Evolutionary.make, h.1, h.2]
  · unfold Evolutionary.make
    split_ifs with h1 h2
    · exact absurd ⟨h1, h2⟩ h
    · rfl
    · rfl
  · simp [MultiStep.make, h]
  · simp [MultiStep.make, not_lt.mpr h]

theorem claim_C7_witness :
    Evolutionary.make 1 2 true = some ⟨1, 2, true⟩ ∧
    Evolutionary.make 1 0 true = none ∧
    MultiStep.make 3 false = some ⟨3, false⟩ ∧
    MultiStep.make 0 false = none :=
  ⟨(claim_C7.1 1 2 true).1 ⟨by norm_num, by norm_num⟩,
   (claim_C7.1 1 0 true).2 (by norm_num),
   (claim_C7.2 3 false).1 (by norm_num),
   (claim_C7.2 0 false).2 (by norm_num)⟩

/-- C5: the provided-`fn_reference` half of the claim holds — it is
consumed exactly once, up front, its value stored under `'reference'`, and
every one of the `num_steps` inner calls receives that same augmented
mapping.  The optional half is a code bug: the source evaluates
`fn_reference(**arguments)` unconditionally, so a call that omits
`fn_reference` (leaving the default `None`) raises `TypeError` instead of
succeeding; in the embedding the step yields `none`. -/
theorem claim_C5 :
    (∀ (σ : Type) (o : MultiStep) (inner : Arguments → σ → List ℚ × σ)
        (arguments0 : Arguments) (s0 : σ),
      MultiStep.tf_step o inner none arguments0 s0 = none) ∧
    (∀ (σ : Type) (k : ℕ) (ul : Bool) (inner : Arguments → σ → List ℚ × σ)
        (f : Arguments → ℚ) (arguments0 : Arguments) (s0 : σ), 1 ≤ k →
      ∃ r, MultiStep.tf_step ⟨k, ul⟩ inner (some f) arguments0 s0 = some r ∧
        r.args = dictSet arguments0 "reference" (f arguments0) ∧
        r.innerArgs.length = k ∧
        ∀ a ∈ r.innerArgs, a = dictSet arguments0 "reference" (f arguments0)) := by
  constructor
  · intro σ o inner a s
    rfl
  · intro σ k ul inner f a0 s0 h
    refine ⟨_, msStepEq k ul inner f a0 s0 h, rfl, by simp, ?_⟩
    intro a ha
    exact List.eq_of_mem_replicate ha

theorem claim_C5_witness :
    MultiStep.tf_step (⟨2, false⟩ : MultiStep) (fun _ (s : ℚ) => ([s], s)) none
        emptyArgs 0 = none ∧
    ∃ r, MultiStep.tf_step (⟨2, false⟩ : MultiStep) (fun _ (s : ℚ) => ([s], s))
        (some (fun _ => 0)) emptyArgs 0 = some r ∧
      r.args = dictSet emptyArgs "reference" ((fun _ => (0 : ℚ)) emptyArgs) ∧
      r.innerArgs.length = 2 ∧
      ∀ a ∈ r.innerArgs, a = dictSet emptyArgs "reference" ((fun _ => (0 : ℚ)) emptyArgs) :=
  ⟨claim_C5.1 ℚ ⟨2, false⟩ (fun _ s => ([s], s)) emptyArgs 0,
   claim_C5.2 ℚ 2 false (fun _ s => ([s], s)) (fun _ => 0) emptyArgs 0 (by norm_num)⟩

/-- C8: `Evolutionary.tf_step` returns the caller's arguments mapping
untouched (the definition threads it past every `fn_loss` call without a
write), while `MultiStep.tf_step` produces an arguments mapping that
differs from the caller's only at `'reference'` (set to the
`fn_reference` value), the mutation happening once before the first inner
step: every recorded inner call receives that already-augmented mapping. -/
theorem claim_C8 (e : Evolutionary) (fnLoss : Arguments → List ℚ → ℚ) (randn : ℕ → ℕ → ℚ)
    (arguments : Arguments) (v0 : List ℚ) (σ : Type) (k : ℕ) (ul : Bool)
    (inner : Arguments → σ → List ℚ × σ) (f : Arguments → ℚ) (arguments0 : Arguments)
    (s0 : σ) (h : 1 ≤ k) :
    (Evolutionary.tf_step e fnLoss randn arguments v0).args = arguments ∧
    ∃ r, MultiStep.tf_step ⟨k, ul⟩ inner (some f) arguments0 s0 = some r ∧
      r.args "reference" = some (f arguments0) ∧
      (∀ key, key ≠ "reference" → r.args key = arguments0 key) ∧
      r.innerArgs = List.replicate k r.args := by
  refine ⟨rfl, _, msStepEq k ul inner f arguments0 s0 h, ?_, ?_, rfl⟩
  · simp [dictSet]
  · intro key hk
    simp [dictSet, hk]

theorem claim_C8_witness :
    (Evolutionary.tf_step ⟨1, 1, true⟩ (fun _ _ => 0) (fun _ _ => 1) emptyArgs [2]).args =
      emptyArgs ∧
    ∃ r, MultiStep.tf_step (⟨1, true⟩ : MultiStep) (fun _ (s : ℚ) => ([s], s))
        (some (fun _ => 5)) emptyArgs 0 = some r ∧
      r.args "reference" = some ((fun _ => (5 : ℚ)) emptyArgs) ∧
      (∀ key, key ≠ "reference" → r.args key = emptyArgs key) ∧
      r.innerArgs = List.replicate 1 r.args :=
  claim_C8 ⟨1, 1, true⟩ (fun _ _ => 0) (fun _ _ => 1) emptyArgs [2] ℚ 1 true
    (fun _ s => ([s], s)) (fun _ => 5) emptyArgs 0 (by norm_num)

/-- C1: for a fixed random stream (fixed seed) and fixed
`num_samples`/`num_steps`, the unrolled strategy and the bounded while-loop
strategy of `Evolutionary.tf_step` and `MultiStep.tf_step` return identical
results — identical delta sequences, traces and final Variable values —
and (for at least one sample) the Evolutionary delta sequence and final
Variable values carry one entry per variable. -/
theorem claim_C1 (lr : ℚ) (n : ℕ) (fnLoss : Arguments → List ℚ → ℚ) (randn : ℕ → ℕ → ℚ)
    (arguments : Arguments) (v0 : List ℚ) (σ : Type) (k : ℕ)
    (inner : Arguments → σ → List ℚ × σ) (fn_reference : Option (Arguments → ℚ))
    (arguments0 : Arguments) (s0 : σ) :
    Evolutionary.tf_step ⟨lr, n, true⟩ fnLoss randn arguments v0 =
      Evolutionary.tf_step ⟨lr, n, false⟩ fnLoss randn arguments v0 ∧
    MultiStep.tf_step ⟨k, true⟩ inner fn_reference arguments0 s0 =
      MultiStep.tf_step ⟨k, false⟩ inner fn_reference arguments0 s0 ∧
    (1 ≤ n →
      (Evolutionary.tf_step ⟨lr, n, true⟩ fnLoss randn arguments v0).deltas.length =
        v0.length ∧
      (Evolutionary.tf_step ⟨lr, n, true⟩ fnLoss randn arguments v0).vars.length =
        v0.length) := by
  refine ⟨?_, ?_, ?_⟩
  · simp only [Evolutionary.tf_step, evo_branch_eq, if_true, Bool.false_eq_true, if_false]
  · cases fn_reference with
    | none => rfl
    | some f =>
      simp only [MultiStep.tf_step, foldl_range_const, if_true, Bool.false_eq_true, if_false]
  · intro h
    rw [evoStepEq lr n true fnLoss randn arguments v0 h]
    constructor
    · simp [dsumAt_length]
    · simp [List.length_zipWith, dsumAt_length]

theorem claim_C1_witness :
    (Evolutionary.tf_step ⟨1, 2, true⟩ (fun _ v => v.foldl (· + ·) 0)
        (fun s j => (s : ℚ) + j) emptyArgs [3, 4] =
      Evolutionary.tf_step ⟨1, 2, false⟩ (fun _ v => v.foldl (· + ·) 0)
        (fun s j => (s : ℚ) + j) emptyArgs [3, 4]) ∧
    (1 ≤ 2 →
      (Evolutionary.tf_step ⟨1, 2, true⟩ (fun _ v => v.foldl (· + ·) 0)
          (fun s j => (s : ℚ) + j) emptyArgs [3, 4]).deltas.length = ([3, 4] : List ℚ).length ∧
      (Evolutionary.tf_step ⟨1, 2, true⟩ (fun _ v => v.foldl (· + ·) 0)
          (fun s j => (s : ℚ) + j) emptyArgs [3, 4]).vars.length = ([3, 4] : List ℚ).length) :=
  ⟨(claim_C1 1 2 (fun _ v => v.foldl (· + ·) 0) (fun s j => (s : ℚ) + j) emptyArgs [3, 4]
      ℚ 1 (fun _ s => ([s], s)) none emptyArgs 0).1,
   (claim_C1 1 2 (fun _ v => v.foldl (· + ·) 0) (fun s j => (s : ℚ) + j) emptyArgs [3, 4]
      ℚ 1 (fun _ s => ([s], s)) none emptyArgs 0).2.2⟩

/-- C2: for `num_steps = k`, under either execution strategy, the returned
deltas are the elementwise sum (`elemSum`) of the `k` delta sequences of
`k` sequential inner invocations (`seqDeltas`, which invokes each inner
step on the state left finalized by the previous one), and the final inner
state is the state after those `k` sequential invocations. -/
theorem claim_C2 (σ : Type) (k : ℕ) (ul : Bool) (inner : Arguments → σ → List ℚ × σ)
    (f : Arguments → ℚ) (arguments0 : Arguments) (s0 : σ) (h : 1 ≤ k) :
    ∃ r, MultiStep.tf_step ⟨k, ul⟩ inner (some f) arguments0 s0 = some r ∧
      r.deltas =
        elemSum (seqDeltas inner (dictSet arguments0 "reference" (f arguments0)) k s0).1 ∧
      r.state = (seqDeltas inner (dictSet arguments0 "reference" (f arguments0)) k s0).2 ∧
      (seqDeltas inner (dictSet arguments0 "reference" (f arguments0)) k s0).1.length = k :=
  ⟨_, msStepEq k ul inner f arguments0 s0 h, rfl, rfl,
    seqDeltas_length inner (dictSet arguments0 "reference" (f arguments0)) k s0⟩

theorem claim_C2_witness :
    ∃ r, MultiStep.tf_step (⟨3, true⟩ : MultiStep) (fun _ (s : ℚ) => ([1], s + 1))
        (some (fun _ => 0)) emptyArgs 0 = some r ∧
      r.deltas = elemSum
        (seqDeltas (fun _ (s : ℚ) => ([1], s + 1))
          (dictSet emptyArgs "reference" ((fun _ => (0 : ℚ)) emptyArgs)) 3 0).1 ∧
      r.state = (seqDeltas (fun _ (s : ℚ) => ([1], s + 1))
          (dictSet emptyArgs "reference" ((fun _ => (0 : ℚ)) emptyArgs)) 3 0).2 ∧
      (seqDeltas (fun _ (s : ℚ) => ([1], s + 1))
          (dictSet emptyArgs "reference" ((fun _ => (0 : ℚ)) emptyArgs)) 3 0).1.length = 3 :=
  claim_C2 ℚ 3 true (fun _ s => ([1], s + 1)) (fun _ => 0) emptyArgs 0 (by norm_num)

/-- C3: under either strategy, the `apply_step` trace of
`Evolutionary.tf_step` is exactly the path original → original+pert₀ →
original+pert₁ → … → original+pert_{m-1} → original+deltas (each in-loop
application being only the incremental difference between consecutive
perturbations), it has exactly `num_samples + 1` entries, and the final
Variable values are the pre-step values plus the returned deltas
elementwise — never an intermediate perturbed state. -/
theorem claim_C3 (lr : ℚ) (n : ℕ) (ul : Bool) (fnLoss : Arguments → List ℚ → ℚ)
    (randn : ℕ → ℕ → ℚ) (arguments : Arguments) (v0 : List ℚ) (h : 1 ≤ n) :
    (Evolutionary.tf_step ⟨lr, n, ul⟩ fnLoss randn arguments v0).applyTrace =
      (List.range n).map (varsAt randn lr v0) ++
        [List.zipWith (· + ·) v0
          (Evolutionary.tf_step ⟨lr, n, ul⟩ fnLoss randn arguments v0).deltas] ∧
    (Evolutionary.tf_step ⟨lr, n, ul⟩ fnLoss randn arguments v0).applyTrace.length = n + 1 ∧
    (Evolutionary.tf_step ⟨lr, n, ul⟩ fnLoss randn arguments v0).vars =
      List.zipWith (· + ·) v0
        (Evolutionary.tf_step ⟨lr, n, ul⟩ fnLoss randn arguments v0).deltas := by
  rw [evoStepEq lr n ul fnLoss randn arguments v0 h]
  exact ⟨rfl, by simp, rfl⟩

theorem claim_C3_witness :
    (Evolutionary.tf_step ⟨1, 2, false⟩ (fun _ v => v.headD 0) (fun s j => (s : ℚ) - j)
        emptyArgs [5]).applyTrace =
      (List.range 2).map (varsAt (fun s j => (s : ℚ) - j) 1 [5]) ++
        [List.zipWith (· + ·) [5]
          (Evolutionary.tf_step ⟨1, 2, false⟩ (fun _ v => v.headD 0) (fun s j => (s : ℚ) - j)
            emptyArgs [5]).deltas] ∧
    (Evolutionary.tf_step ⟨1, 2, false⟩ (fun _ v => v.headD 0) (fun s j => (s : ℚ) - j)
        emptyArgs [5]).applyTrace.length = 2 + 1 ∧
    (Evolutionary.tf_step ⟨1, 2, false⟩ (fun _ v => v.headD 0) (fun s j => (s : ℚ) - j)
        emptyArgs [5]).vars =
      List.zipWith (· + ·) [5]
        (Evolutionary.tf_step ⟨1, 2, false⟩ (fun _ v => v.headD 0) (fun s j => (s : ℚ) - j)
          emptyArgs [5]).deltas :=
  claim_C3 1 2 false (fun _ v => v.headD 0) (fun s j => (s : ℚ) - j) emptyArgs [5]
    (by norm_num)

/-- C4: under either strategy, the accumulator is the elementwise sum of
the per-sample contributions, and sample `s`'s contribution is
`sign(unperturbed_loss - perturbed_loss) * perturbation` for every
variable: the perturbation itself when it strictly reduced the loss, its
negation when it strictly increased it, and the zero vector when the two
losses are exactly equal. -/
theorem claim_C4 (lr : ℚ) (n : ℕ) (ul : Bool) (fnLoss : Arguments → List ℚ → ℚ)
    (randn : ℕ → ℕ → ℚ) (arguments : Arguments) (v0 : List ℚ) (h : 1 ≤ n) :
    (Evolutionary.tf_step ⟨lr, n, ul⟩ fnLoss randn arguments v0).deltasSum =
      elemSum (Evolutionary.tf_step ⟨lr, n, ul⟩ fnLoss randn arguments v0).contribs ∧
    ∀ s, s < n →
      (Evolutionary.tf_step ⟨lr, n, ul⟩ fnLoss randn arguments v0).contribs[s]? =
        some ((pertAt randn lr v0 s).map
          (fun perturbation =>
            tfSign (fnLoss arguments v0 - fnLoss arguments (varsAt randn lr v0 s)) *
              perturbation)) ∧
      (fnLoss arguments (varsAt randn lr v0 s) < fnLoss arguments v0 →
        (Evolutionary.tf_step ⟨lr, n, ul⟩ fnLoss randn arguments v0).contribs[s]? =
          some (pertAt randn lr v0 s)) ∧
      (fnLoss arguments v0 < fnLoss arguments (varsAt randn lr v0 s) →
        (Evolutionary.tf_step ⟨lr, n, ul⟩ fnLoss randn arguments v0).contribs[s]? =
          some ((pertAt randn lr v0 s).map (fun perturbation => -perturbation))) ∧
      (fnLoss arguments v0 = fnLoss arguments (varsAt randn lr v0 s) →
        (Evolutionary.tf_step ⟨lr, n, ul⟩ fnLoss randn arguments v0).contribs[s]? =
          some ((pertAt randn lr v0 s).map (fun _ => (0 : ℚ)))) := by
  rw [evoStepEq lr n ul fnLoss randn arguments v0 h]
  have hn : n - 1 + 1 = n := by omega
  constructor
  · have h1 := elemSum_contribs randn lr (fnLoss arguments) v0 (n - 1)
    rw [hn] at h1
    exact h1.symm
  · intro s hs
    rw [range_map_getElem? (contribAt randn lr (fnLoss arguments) v0) n s hs]
    refine ⟨rfl, fun hlt => ?_, fun hgt => ?_, fun heq => ?_⟩
    · rw [show contribAt randn lr (fnLoss arguments) v0 s =
          (pertAt randn lr v0 s).map
            (fun perturbation => dirAt randn lr (fnLoss arguments) v0 s * perturbation)
          from rfl,
        dirAt, tfSign_of_pos (sub_pos.mpr hlt)]
      simp
    · rw [show contribAt randn lr (fnLoss arguments) v0 s =
          (pertAt randn lr v0 s).map
            (fun perturbation => dirAt randn lr (fnLoss arguments) v0 s * perturbation)
          from rfl,
        dirAt, tfSign_of_neg (sub_neg.mpr hgt)]
      simp
    · rw [show contribAt randn lr (fnLoss arguments) v0 s =
          (pertAt randn lr v0 s).map
            (fun perturbation => dirAt randn lr (fnLoss arguments) v0 s * perturbation)
          from rfl,
        dirAt, heq, sub_self, tfSign_zero]
      simp

theorem claim_C4_witness :
    (Evolutionary.tf_step ⟨1, 1, true⟩ (fun _ v => v.headD 0) (fun _ _ => 1)
        emptyArgs [5]).deltasSum =
      elemSum (Evolutionary.tf_step ⟨1, 1, true⟩ (fun _ v => v.headD 0) (fun _ _ => 1)
        emptyArgs [5]).contribs ∧
    ∀ s, s < 1 →
      (Evolutionary.tf_step ⟨1, 1, true⟩ (fun _ v => v.headD 0) (fun _ _ => 1)
          emptyArgs [5]).contribs[s]? =
        some ((pertAt (fun _ _ => 1) 1 [5] s).map
          (fun perturbation =>
            tfSign ((fun _ (v : List ℚ) => v.headD 0) emptyArgs [5] -
              (fun _ (v : List ℚ) => v.headD 0) emptyArgs (varsAt (fun _ _ => 1) 1 [5] s)) *
              perturbation)) ∧
      ((fun _ (v : List ℚ) => v.headD 0) emptyArgs (varsAt (fun _ _ => 1) 1 [5] s) <
          (fun _ (v : List ℚ) => v.headD 0) emptyArgs [5] →
        (Evolutionary.tf_step ⟨1, 1, true⟩ (fun _ v => v.headD 0) (fun _ _ => 1)
            emptyArgs [5]).contribs[s]? = some (pertAt (fun _ _ => 1) 1 [5] s)) ∧
      ((fun _ (v : List ℚ) => v.headD 0) emptyArgs [5] <
          (fun _ (v : List ℚ) => v.headD 0) emptyArgs (varsAt (fun _ _ => 1) 1 [5] s) →
        (Evolutionary.tf_step ⟨1, 1, true⟩ (fun _ v => v.headD 0) (fun _ _ => 1)
            emptyArgs [5]).contribs[s]? =
          some ((pertAt (fun _ _ => 1) 1 [5] s).map (fun perturbation => -perturbation))) ∧
      ((fun _ (v : List ℚ) => v.headD 0) emptyArgs [5] =
          (fun _ (v : List ℚ) => v.headD 0) emptyArgs (varsAt (fun _ _ => 1) 1 [5] s) →
        (Evolutionary.tf_step ⟨1, 1, true⟩ (fun _ v => v.headD 0) (fun _ _ => 1)
            emptyArgs [5]).contribs[s]? =
          some ((pertAt (fun _ _ => 1) 1 [5] s).map (fun _ => (0 : ℚ)))) :=
  claim_C4 1 1 true (fun _ v => v.headD 0) (fun _ _ => 1) emptyArgs [5] (by norm_num)

/-- C6: under either strategy the returned deltas are the accumulator
divided elementwise by `num_samples`; in particular when every one of the
`num_samples = k` samples observes direction `+1` and the same
perturbation list `P`, the returned deltas equal `P` exactly. -/
theorem claim_C6 (lr : ℚ) (n : ℕ) (ul : Bool) (fnLoss : Arguments → List ℚ → ℚ)
    (randn : ℕ → ℕ → ℚ) (arguments : Arguments) (v0 : List ℚ) (h : 1 ≤ n) :
    (Evolutionary.tf_step ⟨lr, n, ul⟩ fnLoss randn arguments v0).deltas =
      (Evolutionary.tf_step ⟨lr, n, ul⟩ fnLoss randn arguments v0).deltasSum.map
        (fun delta => delta / (n : ℚ)) ∧
    ∀ P : List ℚ,
      (∀ s, s < n → dirAt randn lr (fnLoss arguments) v0 s = 1 ∧
        pertAt randn lr v0 s = P) →
      (Evolutionary.tf_step ⟨lr, n, ul⟩ fnLoss randn arguments v0).deltas = P := by
  rw [evoStepEq lr n ul fnLoss randn arguments v0 h]
  refine ⟨rfl, ?_⟩
  intro P hP
  obtain ⟨m, rfl⟩ : ∃ m, n = m + 1 := ⟨n - 1, by omega⟩
  have hd : dsumAt randn lr (fnLoss arguments) v0 (m + 1 - 1) =
      P.map (fun p => ((m : ℚ) + 1) * p) := by
    have := dsumAt_const randn lr (fnLoss arguments) v0 (m + 1) P
      (fun s hs => (hP s hs).1) (fun s hs => (hP s hs).2) m (by omega)
    simpa using this
  rw [hd, List.map_map]
  have hm0 : ((m : ℚ) + 1) ≠ 0 := by positivity
  have hdiv : ∀ p : ℚ, (((m : ℚ) + 1) * p) / ((m + 1 : ℕ) : ℚ) = p := by
    intro p
    push_cast
    field_simp
  simp only [Function.comp]
  calc P.map (fun p => (((m : ℚ) + 1) * p) / ((m + 1 : ℕ) : ℚ))
      = P.map (fun p => p) := by
        apply List.map_congr_left
        intro p _
        exact hdiv p
    _ = P := List.map_id P

theorem claim_C6_witness :
    (Evolutionary.tf_step ⟨1, 2, false⟩ (fun _ v => -(v.headD 0)) (fun _ _ => 1)
        emptyArgs [0]).deltas =
      (Evolutionary.tf_step ⟨1, 2, false⟩ (fun _ v => -(v.headD 0)) (fun _ _ => 1)
        emptyArgs [0]).deltasSum.map (fun delta => delta / (2 : ℚ)) ∧
    ∀ P : List ℚ,
      (∀ s, s < 2 → dirAt (fun _ _ => 1) 1 ((fun _ (v : List ℚ) => -(v.headD 0)) emptyArgs)
          [0] s = 1 ∧
        pertAt (fun _ _ => 1) 1 [0] s = P) →
      (Evolutionary.tf_step ⟨1, 2, false⟩ (fun _ v => -(v.headD 0)) (fun _ _ => 1)
        emptyArgs [0]).deltas = P :=
  claim_C6 1 2 false (fun _ v => -(v.headD 0)) (fun _ _ => 1) emptyArgs [0] (by norm_num)

/-- C9: under either strategy, `fn_loss` is invoked exactly
`num_samples + 1` times — first on the unperturbed Variables, then once
per sample on the Variables carrying exactly that sample's perturbation —
and every sample's direction compares its perturbed loss against the
single loss value of the original, unperturbed Variables. -/
theorem claim_C9 (lr : ℚ) (n : ℕ) (ul : Bool) (fnLoss : Arguments → List ℚ → ℚ)
    (randn : ℕ → ℕ → ℚ) (arguments : Arguments) (v0 : List ℚ) (h : 1 ≤ n) :
    (Evolutionary.tf_step ⟨lr, n, ul⟩ fnLoss randn arguments v0).lossTrace.length = n + 1 ∧
    (Evolutionary.tf_step ⟨lr, n, ul⟩ fnLoss randn arguments v0).lossTrace =
      v0 :: (List.range n).map (varsAt randn lr v0) ∧
    ∀ s, s < n →
      (Evolutionary.tf_step ⟨lr, n, ul⟩ fnLoss randn arguments v0).dirs[s]? =
        some (tfSign (fnLoss arguments v0 - fnLoss arguments (varsAt randn lr v0 s))) := by
  rw [evoStepEq lr n ul fnLoss randn arguments v0 h]
  refine ⟨by simp, rfl, fun s hs => ?_⟩
  rw [range_map_getElem? (dirAt randn lr (fnLoss arguments) v0) n s hs]
  rfl

theorem claim_C9_witness :
    (Evolutionary.tf_step ⟨1, 3, true⟩ (fun _ v => v.headD 0) (fun s _ => (s : ℚ))
        emptyArgs [7]).lossTrace.length = 3 + 1 ∧
    (Evolutionary.tf_step ⟨1, 3, true⟩ (fun _ v => v.headD 0) (fun s _ => (s : ℚ))
        emptyArgs [7]).lossTrace =
      [7] :: (List.range 3).map (varsAt (fun s _ => (s : ℚ)) 1 [7]) ∧
    ∀ s, s < 3 →
      (Evolutionary.tf_step ⟨1, 3, true⟩ (fun _ v => v.headD 0) (fun s _ => (s : ℚ))
          emptyArgs [7]).dirs[s]? =
        some (tfSign ((fun _ (v : List ℚ) => v.headD 0) emptyArgs [7] -
          (fun _ (v : List ℚ) => v.headD 0) emptyArgs (varsAt (fun s _ => (s : ℚ)) 1 [7] s))) :=
  claim_C9 1 3 true (fun _ v => v.headD 0) (fun s _ => (s : ℚ)) emptyArgs [7] (by norm_num)

/-- C10: under either strategy, each sample's direction is one scalar in
`{1, -1, 0}` obtained from a single loss comparison, and that one scalar
multiplies every variable's perturbation to form the sample's
contribution — directions are never computed per variable. -/
theorem claim_C10 (lr : ℚ) (n : ℕ) (ul : Bool) (fnLoss : Arguments → List ℚ → ℚ)
    (randn : ℕ → ℕ → ℚ) (arguments : Arguments) (v0 : List ℚ) (h : 1 ≤ n) :
    ∀ s, s < n → ∃ d : ℚ,
      (d = 1 ∨ d = -1 ∨ d = 0) ∧
      (Evolutionary.tf_step ⟨lr, n, ul⟩ fnLoss randn arguments v0).dirs[s]? = some d ∧
      (Evolutionary.tf_step ⟨lr, n, ul⟩ fnLoss randn arguments v0).contribs[s]? =
        some ((pertAt randn lr v0 s).map (fun perturbation => d * perturbation)) := by
  rw [evoStepEq lr n ul fnLoss randn arguments v0 h]
  intro s hs
  refine ⟨dirAt randn lr (fnLoss arguments) v0 s,
    tfSign_trichotomy (fnLoss arguments v0 - fnLoss arguments (varsAt randn lr v0 s)), ?_, ?_⟩
  · exact range_map_getElem? (dirAt randn lr (fnLoss arguments) v0) n s hs
  · rw [range_map_getElem? (contribAt randn lr (fnLoss arguments) v0) n s hs]
    rfl

theorem claim_C10_witness :
    ∃ d : ℚ,
      (d = 1 ∨ d = -1 ∨ d = 0) ∧
      (Evolutionary.tf_step ⟨1, 2, true⟩ (fun _ v => v.foldl (· + ·) 0) (fun s j => (s : ℚ) * j)
          emptyArgs [1, 2]).dirs[0]? = some d ∧
      (Evolutionary.tf_step ⟨1, 2, true⟩ (fun _ v => v.foldl (· + ·) 0) (fun s j => (s : ℚ) * j)
          emptyArgs [1, 2]).contribs[0]? =
        some ((pertAt (fun s j => (s : ℚ) * j) 1 [1, 2] 0).map
          (fun perturbation => d * perturbation)) :=
  claim_C10 1 2 true (fun _ v => v.foldl (· + ·) 0) (fun s j => (s : ℚ) * j) emptyArgs [1, 2]
    (by norm_num) 0 (by norm_num)

end Tensorforce
